import Mathlib

/-!
Verification of the calendar-aware aggregation engine of the
`harvest-timetracking` repository (`cmd/timetracking/api.go`).

Shallow embedding conventions:

* A calendar date (Go `time.Time`, used by this program as an opaque calendar
  day) is an `Int`: the number of days since 1970-01-01.  `AddDate(0, 0, -1)`
  is subtraction of 1.  `t.Weekday()` is `(d + 4) % 7` with Go's numbering
  (`Sunday = 0`, ..., `Saturday = 6`); 1970-01-01 was a Thursday (= 4).
* `d.Format("2006-01-02")` is injective on calendar days, so the Go sets keyed
  by formatted date strings (`excludedMap`, the `counter` map in
  `GetRecentDays`) are embedded as collections of day numbers.
* The unbounded Go `for` loops are embedded with explicit fuel; `none` means
  the loop has not finished within the given fuel.  For the entry points the
  fuel is instantiated with a provably sufficient amount, so `some r` holds
  exactly when the Go code returns `r` and `none` exactly when it diverges
  (see `skeletonF_fuel_mono`, `skeletonF_success`, `skeletonF_nonpos_none`).
* The paginated remote entry source is a `List Resp`: the finite sequence of
  responses an execution receives, the last one being the response whose
  `NextPage` is nil.  A `Resp.fail` element is a transport/decoding error.
-/

/-! ### Calendar policy: `Config.Excluded`, `Config.Off` and the shift loop -/

/-- Go `t.Weekday()` on a day number (Sunday = 0, ..., Saturday = 6). -/
def weekdayOf (d : Int) : Int := (d + 4) % 7

/-- The validated calendar part of `Config`: `weekdaysOffMap` (as Go
`time.Weekday` numbers) and `excludedMap` (as day numbers; membership of a
date in the Go map of formatted strings is membership of its day number). -/
structure CalConfig where
  weekdaysOff : List Int
  excluded : List Int
deriving DecidableEq, Repr

/-- `Config.Excluded(d) || Config.Off(d)`: the condition of the three
identical shift loops in `GetRecentDays` and `GetRecentDaysGrouped`. -/
def CalConfig.isNonWorkday (c : CalConfig) (d : Int) : Prop :=
  d ∈ c.excluded ∨ weekdayOf d ∈ c.weekdaysOff

instance (c : CalConfig) (d : Int) : Decidable (c.isNonWorkday d) := by
  unfold CalConfig.isNonWorkday; infer_instance

/-- What `Config.Validate` guarantees when it succeeds: at most 6 distinct
weekdays are off, i.e. some weekday is a working one. -/
def HasWorkWeekday (c : CalConfig) : Prop :=
  ∃ r : Int, 0 ≤ r ∧ r < 7 ∧ r ∉ c.weekdaysOff

/-- One fuel unit per check of the loop condition of
`for t.conf.Excluded(d) || t.conf.Off(d) { d = d.AddDate(0, 0, -1) }`. -/
def shiftFuel (c : CalConfig) : Nat → Int → Option Int
  | 0, _ => none
  | fuel + 1, d => if c.isNonWorkday d then shiftFuel c fuel (d - 1) else some d

/-- A date below every excluded date and below the start date. -/
def lowBound (c : CalConfig) (d : Int) : Int := c.excluded.foldr min d - 7

/-- Fuel that provably suffices for the shift loop on a valid config. -/
def suffFuel (c : CalConfig) (d : Int) : Nat := (d - lowBound c d).toNat + 8

/-- The shift loop as a total function; for valid configurations it returns
the loop's result (`shiftToWorkday_spec`), and the default branch is never
taken (`shiftFuel_suff_some`). -/
def shiftToWorkday (c : CalConfig) (d : Int) : Int :=
  (shiftFuel c (suffFuel c d) d).getD d

theorem shiftFuel_le_and_workday (c : CalConfig) :
    ∀ (n : Nat) (d x : Int), shiftFuel c n d = some x →
      x ≤ d ∧ ¬ c.isNonWorkday x := by
  intro n
  induction n with
  | zero => intro d x h; simp [shiftFuel] at h
  | succ m ih =>
    intro d x h
    simp only [shiftFuel] at h
    split at h
    · rcases ih (d - 1) x h with ⟨h1, h2⟩
      exact ⟨by omega, h2⟩
    · rename_i hw
      cases h
      exact ⟨le_refl _, hw⟩

theorem shiftFuel_mono (c : CalConfig) :
    ∀ (n m : Nat) (d x : Int), shiftFuel c n d = some x → n ≤ m →
      shiftFuel c m d = some x := by
  intro n
  induction n with
  | zero => intro m d x h; simp [shiftFuel] at h
  | succ k ih =>
    intro m d x h hnm
    simp only [shiftFuel] at h
    obtain ⟨m', rfl⟩ : ∃ m', m = m' + 1 := ⟨m - 1, by omega⟩
    simp only [shiftFuel]
    split at h
    · rename_i hw
      rw [if_pos hw]
      exact ih m' (d - 1) x h (by omega)
    · rename_i hw
      rw [if_neg hw]
      exact h

theorem shiftFuel_reaches (c : CalConfig) :
    ∀ (k : Nat) (d : Int), ¬ c.isNonWorkday (d - (k : Int)) →
      ∃ x, shiftFuel c (k + 1) d = some x := by
  intro k
  induction k with
  | zero =>
    intro d h
    refine ⟨d, ?_⟩
    simp only [Nat.cast_zero, sub_zero] at h
    simp [shiftFuel, h]
  | succ m ih =>
    intro d h
    by_cases hw : c.isNonWorkday d
    · have h' : ¬ c.isNonWorkday (d - 1 - (m : Int)) := by
        have : d - 1 - (m : Int) = d - ((m : Int) + 1) := by ring
        rw [this]
        simpa [Nat.cast_succ] using h
      rcases ih (d - 1) h' with ⟨x, hx⟩
      exact ⟨x, by simp only [shiftFuel]; rw [if_pos hw]; exact hx⟩
    · exact ⟨d, by simp only [shiftFuel]; rw [if_neg hw]⟩

theorem foldr_min_le {l : List Int} {a : Int} :
    ∀ x ∈ l, l.foldr min a ≤ x := by
  induction l with
  | nil => intro x hx; cases hx
  | cons y ys ih =>
    intro x hx
    rcases List.mem_cons.mp hx with rfl | hx
    · exact min_le_left _ _
    · exact le_trans (min_le_right _ _) (ih x hx)

theorem foldr_min_le_init (l : List Int) (a : Int) : l.foldr min a ≤ a := by
  induction l with
  | nil => exact le_refl _
  | cons y ys ih => exact le_trans (min_le_right _ _) ih

theorem exists_workday_step (c : CalConfig) (hc : HasWorkWeekday c) (d : Int) :
    ∃ k : Nat, (k : Int) ≤ d - lowBound c d + 6 ∧
      ¬ c.isNonWorkday (d - (k : Int)) := by
  rcases hc with ⟨r, hr0, hr7, hroff⟩
  set L := lowBound c d with hL
  have hLd : L ≤ d - 7 := by
    have := foldr_min_le_init c.excluded d
    simp only [hL, lowBound]
    omega
  set e : Int := L - ((L + 4 - r) % 7) with he
  have hmod : 0 ≤ (L + 4 - r) % 7 ∧ (L + 4 - r) % 7 < 7 := by omega
  have heL : L - 6 ≤ e ∧ e ≤ L := by omega
  have hed : e ≤ d := by omega
  refine ⟨(d - e).toNat, by omega, ?_⟩
  have hde : d - ((d - e).toNat : Int) = e := by omega
  rw [hde]
  intro hcon
  rcases hcon with hex | hoff
  · have := foldr_min_le (a := d) e hex
    simp only [hL, lowBound] at heL
    omega
  · have hwe : weekdayOf e = r := by
      simp only [weekdayOf, he]
      omega
    rw [hwe] at hoff
    exact hroff hoff

theorem shiftFuel_suff_some (c : CalConfig) (hc : HasWorkWeekday c) (d : Int) :
    ∃ x, shiftFuel c (suffFuel c d) d = some x := by
  rcases exists_workday_step c hc d with ⟨k, hk, hwork⟩
  rcases shiftFuel_reaches c k d hwork with ⟨x, hx⟩
  refine ⟨x, shiftFuel_mono c (k + 1) (suffFuel c d) d x hx ?_⟩
  have h7 : 7 ≤ d - lowBound c d := by
    have := foldr_min_le_init c.excluded d
    simp only [lowBound]
    omega
  simp only [suffFuel]
  omega

theorem shiftToWorkday_spec (c : CalConfig) (hc : HasWorkWeekday c) (d : Int) :
    shiftToWorkday c d ≤ d ∧ ¬ c.isNonWorkday (shiftToWorkday c d) := by
  rcases shiftFuel_suff_some c hc d with ⟨x, hx⟩
  rcases shiftFuel_le_and_workday c (suffFuel c d) d x hx with ⟨h1, h2⟩
  simp [shiftToWorkday, hx, h1, h2]

theorem shiftToWorkday_le (c : CalConfig) (d : Int) : shiftToWorkday c d ≤ d := by
  unfold shiftToWorkday
  cases hx : shiftFuel c (suffFuel c d) d with
  | none => simp
  | some x =>
    exact (shiftFuel_le_and_workday c (suffFuel c d) d x hx).1

theorem shiftToWorkday_eq_self (c : CalConfig) (d : Int)
    (h : ¬ c.isNonWorkday d) : shiftToWorkday c d = d := by
  have h8 : ∃ k, suffFuel c d = k + 1 :=
    ⟨(d - lowBound c d).toNat + 7, by simp only [suffFuel]⟩
  rcases h8 with ⟨k, hk⟩
  simp [shiftToWorkday, hk, shiftFuel, h]

/-- C5: for every configuration that passed validation (≤ 6 distinct
off-weekdays, a finite excluded-date set) and every date `d`, the backward
shift loop terminates — the explicitly computed fuel `suffFuel c d` is enough
for it to finish — and yields `d' ≤ d` with `IsNonWorkday d'` false. -/
theorem shiftToWorkday_terminates_workday (c : CalConfig)
    (hc : HasWorkWeekday c) (d : Int) :
    ∃ d', shiftFuel c (suffFuel c d) d = some d' ∧
      shiftToWorkday c d = d' ∧ d' ≤ d ∧ ¬ c.isNonWorkday d' := by
  rcases shiftFuel_suff_some c hc d with ⟨x, hx⟩
  rcases shiftFuel_le_and_workday c (suffFuel c d) d x hx with ⟨h1, h2⟩
  exact ⟨x, hx, by simp [shiftToWorkday, hx], h1, h2⟩

/-- Witness for C5: weekend off and 1970-01-03 (a Saturday, day 2) also
explicitly excluded; from day 2 the loop stops at day 1 (a Friday). -/
theorem shiftToWorkday_terminates_workday_witness :
    HasWorkWeekday ⟨[0, 6], [2]⟩ ∧
      ∃ d', shiftFuel ⟨[0, 6], [2]⟩ (suffFuel ⟨[0, 6], [2]⟩ 2) 2 = some d' ∧
        shiftToWorkday ⟨[0, 6], [2]⟩ 2 = d' ∧ d' ≤ 2 ∧
        ¬ CalConfig.isNonWorkday ⟨[0, 6], [2]⟩ d' :=
  ⟨⟨1, by decide⟩,
    shiftToWorkday_terminates_workday ⟨[0, 6], [2]⟩ ⟨1, by decide⟩ 2⟩

/-- C6: on a validated configuration the backward shift is idempotent:
shifting an already shifted date changes nothing, because a date that is
already a workday shifts to itself. -/
theorem shiftToWorkday_idempotent (c : CalConfig) (hc : HasWorkWeekday c)
    (d : Int) : shiftToWorkday c (shiftToWorkday c d) = shiftToWorkday c d :=
  shiftToWorkday_eq_self c _ (shiftToWorkday_spec c hc d).2

/-- Witness for C6 at the configuration and date of the C5 witness. -/
theorem shiftToWorkday_idempotent_witness :
    HasWorkWeekday ⟨[0, 6], [2]⟩ ∧
      shiftToWorkday ⟨[0, 6], [2]⟩ (shiftToWorkday ⟨[0, 6], [2]⟩ 2) =
        shiftToWorkday ⟨[0, 6], [2]⟩ 2 :=
  ⟨⟨1, by decide⟩, shiftToWorkday_idempotent ⟨[0, 6], [2]⟩ ⟨1, by decide⟩ 2⟩

/-! ### Entry collector: `Timetracking.GetRecentDays` -/

/-- `harvest.TimeEntry` as used by this code: `Hours` (a fractional number of
hours) and the optional `SpentDate` (a day number, `none` when absent). -/
structure TimeEntry where
  hours : Rat
  spentDate : Option Int
deriving DecidableEq, Repr

/-- `counter[df] = struct{}{}`: the distinct-day map as a duplicate-free
list of day numbers. -/
def insertDay (counter : List Int) (d : Int) : List Int :=
  if d ∈ counter then counter else d :: counter

/-- One response of the paginated remote entry source: a page of entries, or
a transport/auth/decoding error.  A run's responses form a `List Resp` whose
last element is the page with no `NextPage`. -/
inductive Resp
  | ok (entries : List TimeEntry)
  | fail
deriving DecidableEq, Repr

/-- How a finished `GetRecentDays` call ends: returning
`(len(counter), entries, nil)`, returning `(0, nil, err)` after a failed
remote fetch, or a runtime panic (`make` with a negative capacity), which
returns nothing. -/
inductive GRDResult
  | ok (days : Nat) (entries : List TimeEntry)
  | err
  | panicked
deriving DecidableEq, Repr

/-- The `for _, e := range res.TimeEntries` body of `GetRecentDays`; the
`Bool` is true when `break outer` was executed. -/
def processEntries (c : CalConfig) (amount : Int) :
    List TimeEntry → List Int → List TimeEntry →
      List Int × List TimeEntry × Bool
  | [], counter, es => (counter, es, false)
  | e :: rest, counter, es =>
    match e.spentDate with
    | none => processEntries c amount rest counter es
    | some d0 =>
      let d := shiftToWorkday c d0
      if d ∉ counter ∧ (counter.length : Int) = amount then
        (counter, es, true)
      else processEntries c amount rest (insertDay counter d) (es ++ [e])

/-- The `outer` pagination loop of `GetRecentDays`, consuming the remote
responses in order; an empty `rest` is a response with `NextPage == nil`. -/
def pageLoop (c : CalConfig) (amount : Int) :
    List Resp → List Int → List TimeEntry → Option GRDResult
  | [], _, _ => none
  | Resp.fail :: _, _, _ => some GRDResult.err
  | Resp.ok page :: rest, counter, es =>
    match processEntries c amount page counter es with
    | (counter2, es2, true) => some (GRDResult.ok counter2.length es2)
    | (counter2, es2, false) =>
      match rest with
      | [] => some (GRDResult.ok counter2.length es2)
      | _ :: _ => pageLoop c amount rest counter2 es2

/-- The `if actualDays` skeleton loop of `GetRecentDays`: walk backward from
`from`, shift to a workday, record it and append a zero-duration placeholder,
until `len(counter) == amount`.  One fuel unit per iteration. -/
def skeletonF (c : CalConfig) (amount : Int) :
    Nat → Int → List Int → List TimeEntry →
      Option (List Int × List TimeEntry)
  | 0, _, _, _ => none
  | fuel + 1, d, counter, es =>
    let w := shiftToWorkday c d
    let counter2 := insertDay counter w
    let es2 := es ++ [⟨0, some w⟩]
    if (counter2.length : Int) = amount then some (counter2, es2)
    else skeletonF c amount fuel (w - 1) counter2 es2

/-- `GetRecentDays` with explicit fuel for the skeleton loop (the pagination
loop is structural in the response list).  Before either loop,
`entries := make(harvest.TimeEntries, 0, amount)` panics at runtime when
`amount` is negative (negative slice capacity): outcome `panicked`.
`none`: the call has not returned within `fuel` skeleton iterations, or the
modelled response list ran out. -/
def getRecentDaysFuel (c : CalConfig) (amount fromD : Int) (actualDays : Bool)
    (resps : List Resp) (fuel : Nat) : Option GRDResult :=
  if amount < 0 then some GRDResult.panicked
  else if actualDays then
    match skeletonF c amount fuel fromD [] [] with
    | none => none
    | some (counter, es) => pageLoop c amount resps counter es
  else pageLoop c amount resps [] []

/-- `GetRecentDays`.  A negative amount panics before either loop.  The
fuel `amount.toNat` is exactly the number of iterations the skeleton loop
performs when it terminates (`skeletonF_success`); when `amount = 0` the
loop never terminates for any fuel (`skeletonF_nonpos_none`), and `none` is
the outcome. -/
def getRecentDays (c : CalConfig) (amount fromD : Int) (actualDays : Bool)
    (resps : List Resp) : Option GRDResult :=
  getRecentDaysFuel c amount fromD actualDays resps amount.toNat

theorem insertDay_length_pos (counter : List Int) (d : Int) :
    1 ≤ (insertDay counter d).length := by
  unfold insertDay
  split
  · rename_i h
    cases counter with
    | nil => cases h
    | cons a l => simp
  · simp

theorem skeletonF_fuel_mono (c : CalConfig) (amount : Int) :
    ∀ (n m : Nat) (d : Int) (counter : List Int) (es : List TimeEntry) r,
      skeletonF c amount n d counter es = some r → n ≤ m →
        skeletonF c amount m d counter es = some r := by
  intro n
  induction n with
  | zero => intro m d counter es r h; simp [skeletonF] at h
  | succ k ih =>
    intro m d counter es r h hnm
    obtain ⟨m', rfl⟩ : ∃ m', m = m' + 1 := ⟨m - 1, by omega⟩
    simp only [skeletonF] at h ⊢
    split at h
    · rename_i hlen
      rw [if_pos hlen]
      exact h
    · rename_i hlen
      rw [if_neg hlen]
      exact ih m' _ _ _ r h (by omega)

theorem skeletonF_length (c : CalConfig) (amount : Int) :
    ∀ (fuel : Nat) (d : Int) (counter : List Int) (es : List TimeEntry)
      (co : List Int) (es2 : List TimeEntry),
      skeletonF c amount fuel d counter es = some (co, es2) →
        (co.length : Int) = amount := by
  intro fuel
  induction fuel with
  | zero => intro d counter es co es2 h; simp [skeletonF] at h
  | succ k ih =>
    intro d counter es co es2 h
    simp only [skeletonF] at h
    split at h
    · rename_i hlen
      cases h
      exact hlen
    · exact ih _ _ _ co es2 h

theorem skeletonF_nonpos_none (c : CalConfig) (amount : Int)
    (hA : amount ≤ 0) :
    ∀ (fuel : Nat) (d : Int) (counter : List Int) (es : List TimeEntry),
      skeletonF c amount fuel d counter es = none := by
  intro fuel
  induction fuel with
  | zero => intro d counter es; rfl
  | succ k ih =>
    intro d counter es
    have hpos := insertDay_length_pos counter (shiftToWorkday c d)
    simp only [skeletonF]
    rw [if_neg (by omega)]
    exact ih _ _ _

theorem skeletonF_success (c : CalConfig) (amount : Int) :
    ∀ (fuel : Nat) (d : Int) (counter : List Int) (es : List TimeEntry),
      1 ≤ fuel →
      (∀ x ∈ counter, d < x) →
      counter.Nodup →
      (counter.length : Int) + (fuel : Int) = amount →
      ∃ co es2,
        skeletonF c amount fuel d counter es = some (co, es2) ∧
        co.Nodup ∧ co.length = counter.length + fuel ∧
        (∀ w ∈ co, w ∈ counter ∨
          ((⟨0, some w⟩ : TimeEntry) ∈ es2 ∧ ∃ d0, w = shiftToWorkday c d0)) ∧
        (∀ e ∈ es, e ∈ es2) := by
  intro fuel
  induction fuel with
  | zero => intro d counter es h1; omega
  | succ k ih =>
    intro d counter es _ hinv hnd hlen
    have hwle : shiftToWorkday c d ≤ d := shiftToWorkday_le c d
    have hwnot : shiftToWorkday c d ∉ counter := by
      intro hmem
      exact absurd (hinv _ hmem) (by omega)
    have hins : insertDay counter (shiftToWorkday c d) =
        shiftToWorkday c d :: counter := if_neg hwnot
    by_cases hk : k = 0
    · subst hk
      refine ⟨shiftToWorkday c d :: counter, es ++ [⟨0, some (shiftToWorkday c d)⟩],
        ?_, ?_, ?_, ?_, ?_⟩
      · simp only [skeletonF, hins]
        rw [if_pos (by simp; omega)]
      · exact List.Nodup.cons hwnot hnd
      · simp
      · intro w hw
        rcases List.mem_cons.mp hw with rfl | hw
        · exact Or.inr ⟨by simp, ⟨d, rfl⟩⟩
        · exact Or.inl hw
      · intro e he; simp [he]
    · have hk1 : 1 ≤ k := by omega
      have hstep := ih (shiftToWorkday c d - 1)
        (shiftToWorkday c d :: counter)
        (es ++ [⟨0, some (shiftToWorkday c d)⟩]) hk1
        (by
          intro x hx
          rcases List.mem_cons.mp hx with rfl | hx
          · omega
          · have := hinv x hx; omega)
        (List.Nodup.cons hwnot hnd)
        (by simp; omega)
      rcases hstep with ⟨co, es2, hrun, hnd2, hlen2, hmem2, hes2⟩
      refine ⟨co, es2, ?_, hnd2, ?_, ?_, ?_⟩
      · simp only [skeletonF, hins]
        rw [if_neg (by simp; omega)]
        exact hrun
      · simp at hlen2; omega
      · intro w hw
        rcases hmem2 w hw with hw2 | hw2
        · rcases List.mem_cons.mp hw2 with rfl | hw2
          · refine Or.inr ⟨hes2 _ (by simp), ⟨d, rfl⟩⟩
          · exact Or.inl hw2
        · exact Or.inr hw2
      · intro e he
        exact hes2 e (by simp [he])

theorem processEntries_stable (c : CalConfig) (amount : Int) :
    ∀ (page : List TimeEntry) (counter : List Int) (es : List TimeEntry)
      (co : List Int) (es2 : List TimeEntry) (b : Bool),
      (counter.length : Int) = amount →
      processEntries c amount page counter es = (co, es2, b) →
      co = counter ∧ ∀ x ∈ es, x ∈ es2 := by
  intro page
  induction page with
  | nil =>
    intro counter es co es2 b hlen h
    simp only [processEntries] at h
    cases h
    exact ⟨rfl, fun x hx => hx⟩
  | cons e rest ih =>
    intro counter es co es2 b hlen h
    cases hd : e.spentDate with
    | none =>
      simp only [processEntries, hd] at h
      exact ih counter es co es2 b hlen h
    | some d0 =>
      simp only [processEntries, hd] at h
      by_cases hc2 : shiftToWorkday c d0 ∉ counter ∧ (counter.length : Int) = amount
      · rw [if_pos hc2] at h
        cases h
        exact ⟨rfl, fun x hx => hx⟩
      · rw [if_neg hc2] at h
        have hmem : shiftToWorkday c d0 ∈ counter := by
          by_contra hnm
          exact hc2 ⟨hnm, hlen⟩
        rw [insertDay, if_pos hmem] at h
        rcases ih counter (es ++ [e]) co es2 b hlen h with ⟨h1, h2⟩
        exact ⟨h1, fun x hx => h2 x (by simp [hx])⟩

theorem processEntries_le (c : CalConfig) (amount : Int) :
    ∀ (page : List TimeEntry) (counter : List Int) (es : List TimeEntry)
      (co : List Int) (es2 : List TimeEntry) (b : Bool),
      (counter.length : Int) ≤ amount →
      processEntries c amount page counter es = (co, es2, b) →
      (co.length : Int) ≤ amount := by
  intro page
  induction page with
  | nil =>
    intro counter es co es2 b hlen h
    simp only [processEntries] at h
    cases h
    exact hlen
  | cons e rest ih =>
    intro counter es co es2 b hlen h
    cases hd : e.spentDate with
    | none =>
      simp only [processEntries, hd] at h
      exact ih counter es co es2 b hlen h
    | some d0 =>
      simp only [processEntries, hd] at h
      by_cases hc2 : shiftToWorkday c d0 ∉ counter ∧ (counter.length : Int) = amount
      · rw [if_pos hc2] at h
        cases h
        exact hlen
      · rw [if_neg hc2] at h
        by_cases hmem : shiftToWorkday c d0 ∈ counter
        · rw [insertDay, if_pos hmem] at h
          exact ih counter (es ++ [e]) co es2 b hlen h
        · have hne : (counter.length : Int) ≠ amount := by
            intro hx
            exact hc2 ⟨hmem, hx⟩
          rw [insertDay, if_neg hmem] at h
          refine ih _ (es ++ [e]) co es2 b ?_ h
          simp only [List.length_cons]
          push_cast
          omega

theorem pageLoop_stable (c : CalConfig) (amount : Int) :
    ∀ (resps : List Resp) (counter : List Int) (es : List TimeEntry)
      (days : Nat) (esF : List TimeEntry),
      (counter.length : Int) = amount →
      pageLoop c amount resps counter es = some (GRDResult.ok days esF) →
      days = counter.length ∧ ∀ x ∈ es, x ∈ esF := by
  intro resps
  induction resps with
  | nil =>
    intro counter es days esF hlen h
    simp [pageLoop] at h
  | cons r rest ih =>
    intro counter es days esF hlen h
    cases r with
    | fail => simp [pageLoop] at h
    | ok page =>
      rcases hpe : processEntries c amount page counter es with ⟨co, es2, b⟩
      obtain ⟨hco, hes⟩ :=
        processEntries_stable c amount page counter es co es2 b hlen hpe
      simp only [pageLoop, hpe] at h
      cases b with
      | true =>
        cases h
        exact ⟨by rw [hco], hes⟩
      | false =>
        cases rest with
        | nil =>
          cases h
          exact ⟨by rw [hco], hes⟩
        | cons r2 rest2 =>
          have hlen2 : (co.length : Int) = amount := by rw [hco]; exact hlen
          rcases ih co es2 days esF hlen2 h with ⟨h1, h2⟩
          exact ⟨by rw [h1, hco], fun x hx => h2 x (hes x hx)⟩

theorem pageLoop_le (c : CalConfig) (amount : Int) :
    ∀ (resps : List Resp) (counter : List Int) (es : List TimeEntry)
      (days : Nat) (esF : List TimeEntry),
      (counter.length : Int) ≤ amount →
      pageLoop c amount resps counter es = some (GRDResult.ok days esF) →
      (days : Int) ≤ amount := by
  intro resps
  induction resps with
  | nil =>
    intro counter es days esF hlen h
    simp [pageLoop] at h
  | cons r rest ih =>
    intro counter es days esF hlen h
    cases r with
    | fail => simp [pageLoop] at h
    | ok page =>
      rcases hpe : processEntries c amount page counter es with ⟨co, es2, b⟩
      have hco := processEntries_le c amount page counter es co es2 b hlen hpe
      simp only [pageLoop, hpe] at h
      cases b with
      | true =>
        cases h
        exact hco
      | false =>
        cases rest with
        | nil =>
          cases h
          exact hco
        | cons r2 rest2 => exact ih co es2 days esF hco h

theorem pageLoop_ok_of_no_fail (c : CalConfig) (amount : Int) :
    ∀ (resps : List Resp) (counter : List Int) (es : List TimeEntry),
      resps ≠ [] → (∀ r ∈ resps, r ≠ Resp.fail) →
      ∃ days esF,
        pageLoop c amount resps counter es = some (GRDResult.ok days esF) := by
  intro resps
  induction resps with
  | nil => intro counter es hne; exact absurd rfl hne
  | cons r rest ih =>
    intro counter es _ hok
    cases r with
    | fail => exact absurd rfl (hok Resp.fail (by simp))
    | ok page =>
      rcases hpe : processEntries c amount page counter es with ⟨co, es2, b⟩
      cases b with
      | true => exact ⟨co.length, es2, by simp only [pageLoop, hpe]⟩
      | false =>
        cases rest with
        | nil => exact ⟨co.length, es2, by simp only [pageLoop, hpe]⟩
        | cons r2 rest2 =>
          rcases ih co es2 (by simp) (fun x hx => hok x (by simp [hx]))
            with ⟨days, esF, hpl⟩
          exact ⟨days, esF, by simp only [pageLoop, hpe]; exact hpl⟩

/-- Amended C1: for every amount N ≥ 1, every starting date and every
error-free remote interaction (including one returning zero entries),
`GetRecentDays` with `includeEmptyDays = true` returns a distinct-day count
of exactly N, and the returned collection contains a zero-duration
placeholder entry for each of those N distinct workdays. -/
theorem getRecentDays_includeEmpty_exact_days (c : CalConfig)
    (hc : HasWorkWeekday c) (amount fromD : Int) (h1 : 1 ≤ amount)
    (resps : List Resp) (hne : resps ≠ [])
    (hok : ∀ r ∈ resps, r ≠ Resp.fail) :
    ∃ (es : List TimeEntry) (S : List Int),
      getRecentDays c amount fromD true resps =
        some (GRDResult.ok S.length es) ∧
      (S.length : Int) = amount ∧ S.Nodup ∧
      ∀ w ∈ S, ¬ c.isNonWorkday w ∧ (⟨0, some w⟩ : TimeEntry) ∈ es := by
  have hsk := skeletonF_success c amount amount.toNat fromD [] []
    (by omega) (by simp) List.nodup_nil (by simp; omega)
  rcases hsk with ⟨co, es0, hrun, hnd, hlenco, hmemco, -⟩
  have hlen2 : (co.length : Int) = amount := by
    simp only [List.length_nil, Nat.zero_add] at hlenco
    omega
  rcases pageLoop_ok_of_no_fail c amount resps co es0 hne hok
    with ⟨days, esF, hpl⟩
  rcases pageLoop_stable c amount resps co es0 days esF hlen2 hpl
    with ⟨hdays, hsub⟩
  subst hdays
  refine ⟨esF, co, ?_, hlen2, hnd, ?_⟩
  · show getRecentDaysFuel c amount fromD true resps amount.toNat = _
    unfold getRecentDaysFuel
    rw [if_neg (by omega), if_pos rfl, hrun]
    exact hpl
  · intro w hw
    rcases hmemco w hw with hw2 | ⟨hph, d0, rfl⟩
    · cases hw2
    · exact ⟨(shiftToWorkday_spec c hc d0).2, hsub _ hph⟩

/-- Witness for the amended C1: two empty workdays are synthesized when the
remote source answers a single empty page. -/
theorem getRecentDays_includeEmpty_exact_days_witness :
    HasWorkWeekday ⟨[], []⟩ ∧ (1 : Int) ≤ 2 ∧
      ([Resp.ok []] ≠ ([] : List Resp)) ∧
      (∀ r ∈ [Resp.ok []], r ≠ Resp.fail) ∧
      ∃ (es : List TimeEntry) (S : List Int),
        getRecentDays ⟨[], []⟩ 2 0 true [Resp.ok []] =
          some (GRDResult.ok S.length es) ∧
        (S.length : Int) = 2 ∧ S.Nodup ∧
        ∀ w ∈ S, ¬ CalConfig.isNonWorkday ⟨[], []⟩ w ∧
          (⟨0, some w⟩ : TimeEntry) ∈ es :=
  ⟨⟨0, by decide⟩, by norm_num, by decide, by decide,
    getRecentDays_includeEmpty_exact_days ⟨[], []⟩ ⟨0, by decide⟩ 2 0
      (by norm_num) [Resp.ok []] (by decide) (by decide)⟩

/-- Counterexample to C1 as stated: at amount N = 0 (a quantified "every
amount") the skeleton loop never reaches `len(counter) == amount`, so the
call never returns — `none` for the exact fuel, and `skeletonF_nonpos_none`
shows no fuel suffices — instead of returning a 0-day result. -/
theorem getRecentDays_zero_amount_diverges :
    getRecentDays ⟨[], []⟩ 0 0 true [Resp.ok []] = none := rfl

/-- C2: for every input amount, starting date, `includeEmptyDays` flag and
remote response sequence, whenever `GetRecentDays` returns a distinct-day
count it is at most `amount`.  (A negative amount panics at the `make`
call and returns no count at all; for nonnegative amounts the quota check
bounds the counter.) -/
theorem getRecentDays_days_le_amount (c : CalConfig) (amount fromD : Int)
    (actualDays : Bool) (resps : List Resp) (days : Nat)
    (es : List TimeEntry)
    (h : getRecentDays c amount fromD actualDays resps =
      some (GRDResult.ok days es)) :
    (days : Int) ≤ amount := by
  unfold getRecentDays getRecentDaysFuel at h
  by_cases hneg : amount < 0
  · rw [if_pos hneg] at h
    cases h
  · rw [if_neg hneg] at h
    cases actualDays with
    | false =>
      rw [if_neg (by decide)] at h
      exact pageLoop_le c amount resps [] [] days es (by simp; omega) h
    | true =>
      rw [if_pos rfl] at h
      cases hsk : skeletonF c amount amount.toNat fromD [] [] with
      | none =>
        rw [hsk] at h
        exact absurd h (by simp)
      | some r =>
        rcases r with ⟨co, es0⟩
        rw [hsk] at h
        have hlen := skeletonF_length c amount amount.toNat fromD [] [] co es0 hsk
        exact pageLoop_le c amount resps co es0 days es (by omega) h

/-- Witness for C2 at amount 2 with one empty page. -/
theorem getRecentDays_days_le_amount_witness :
    getRecentDays ⟨[], []⟩ 2 0 true [Resp.ok []] =
        some (GRDResult.ok 2 [⟨0, some 0⟩, ⟨0, some (-1)⟩]) ∧
      ((2 : Nat) : Int) ≤ 2 :=
  ⟨by decide,
    getRecentDays_days_le_amount ⟨[], []⟩ 2 0 true [Resp.ok []] 2
      [⟨0, some 0⟩, ⟨0, some (-1)⟩] (by decide)⟩

/-- C3 (the spec's intent): the code never yields the intended empty
result.  For `amount = 0` and `includeEmptyDays = true` the skeleton loop's
exit test `len(counter) == amount` can never hold (the counter is
nonempty), so `GetRecentDays` never returns, for any fuel and any remote
behaviour; and for every `amount < 0` the call panics at
`make(harvest.TimeEntries, 0, amount)` before either loop, for either flag
— rather than returning an empty collection without error. -/
theorem getRecentDays_nonpos_bug (c : CalConfig) (amount fromD : Int)
    (resps : List Resp) (fuel : Nat) :
    (amount = 0 → getRecentDaysFuel c amount fromD true resps fuel = none) ∧
    (amount < 0 → ∀ actualDays : Bool,
      getRecentDaysFuel c amount fromD actualDays resps fuel =
        some GRDResult.panicked) := by
  constructor
  · intro h0
    unfold getRecentDaysFuel
    rw [if_neg (by omega), if_pos rfl,
      skeletonF_nonpos_none c amount (by omega) fuel fromD [] []]
  · intro hneg actualDays
    unfold getRecentDaysFuel
    rw [if_pos hneg]

/-- Witness for the C3 theorem: the hang at amount 0 and the panic at
amount −1, both at fuel 100. -/
theorem getRecentDays_nonpos_bug_witness :
    getRecentDaysFuel ⟨[], []⟩ 0 5 true [Resp.ok []] 100 = none ∧
      getRecentDaysFuel ⟨[], []⟩ (-1) 5 false [Resp.ok []] 100 =
        some GRDResult.panicked :=
  ⟨(getRecentDays_nonpos_bug ⟨[], []⟩ 0 5 [Resp.ok []] 100).1 rfl,
    (getRecentDays_nonpos_bug ⟨[], []⟩ (-1) 5 [Resp.ok []] 100).2
      (by norm_num) false⟩

/-- Counterexample to C4 as stated: with Saturday off, `GetRecentDays`
retains the remote entry dated day 2 (Saturday 1970-01-03) *unchanged* —
only the counting uses the shifted date 1 — so the returned collection
carries a date for which `IsNonWorkday` is true. -/
theorem getRecentDays_keeps_unshifted_date :
    getRecentDays ⟨[6], []⟩ 1 2 false [Resp.ok [⟨5, some 2⟩]] =
      some (GRDResult.ok 1 [⟨5, some 2⟩]) ∧
      CalConfig.isNonWorkday ⟨[6], []⟩ 2 := by
  decide

/-! ### Grouping: `Timetracking.GetRecentDaysGrouped` -/

/-- Modelled from the spec: the CLI's granularity constants (declared in the
repository's `main.go`, which is not part of the sources here; §6: flags
selecting "day|week|month|year", the default being "day"). -/
def groupByDay : String := "day"

/-- Modelled from the spec: see `groupByDay`. -/
def groupByWeek : String := "week"

/-- Modelled from the spec: see `groupByDay`. -/
def groupByMonth : String := "month"

/-- Modelled from the spec: see `groupByDay`. -/
def groupByYear : String := "year"

/-- Civil calendar date (year, month, day) of a day number, as Go's
`time.Time` would render it. -/
def civilFromDays (z0 : Int) : Int × Int × Int :=
  let z := z0 + 719468
  let era := z / 146097
  let doe := z % 146097
  let yoe := (doe - doe / 1460 + doe / 36524 - doe / 146096) / 365
  let y := yoe + era * 400
  let doy := doe - (365 * yoe + yoe / 4 - yoe / 100)
  let mp := (5 * doy + 2) / 153
  let dd := doy - (153 * mp + 2) / 5 + 1
  let mm := mp + (if mp < 10 then 3 else -9)
  (y + (if mm ≤ 2 then 1 else 0), mm, dd)

/-- Day number of a civil calendar date (inverse of `civilFromDays`). -/
def daysFromCivil (y0 m d : Int) : Int :=
  let y := y0 - (if m ≤ 2 then 1 else 0)
  let era := y / 400
  let yoe := y - era * 400
  let doy := (153 * (m + (if 2 < m then -3 else 9)) + 2) / 5 + d - 1
  let doe := yoe * 365 + yoe / 4 - yoe / 100 + doy
  era * 146097 + doe - 719468

def pad2 (n : Int) : String :=
  if 0 ≤ n ∧ n < 10 then "0" ++ toString n else toString n

def pad4 (n : Int) : String :=
  if 0 ≤ n ∧ n < 10 then "000" ++ toString n
  else if 0 ≤ n ∧ n < 100 then "00" ++ toString n
  else if 0 ≤ n ∧ n < 1000 then "0" ++ toString n
  else toString n

/-- Go `d.Format(layout)` for the three layouts this program uses. -/
def formatDate (layout : String) (d : Int) : String :=
  let c := civilFromDays d
  if layout = "2006-01" then pad4 c.1 ++ "-" ++ pad2 c.2.1
  else if layout = "2006" then pad4 c.1
  else pad4 c.1 ++ "-" ++ pad2 c.2.1 ++ "-" ++ pad2 c.2.2

/-- Go `d.ISOWeek()` rendered as the `fmt.Sprintf("%d|%d", y, w)` key: the
ISO year and week are those of the Thursday of `d`'s Monday-based week. -/
def isoWeekKey (d : Int) : String :=
  let wd := (weekdayOf d + 6) % 7
  let thu := d + 3 - wd
  let y := (civilFromDays thu).1
  let week := (thu - daysFromCivil y 1 1) / 7 + 1
  toString y ++ "|" ++ toString week

/-- The `groupFormat` chosen by the `switch groupBy` (only reached for a
valid granularity; "day" and "week" keep the default layout). -/
def groupFormatOf (groupBy : String) : String :=
  if groupBy = groupByMonth then "2006-01"
  else if groupBy = groupByYear then "2006"
  else "2006-01-02"

/-- The grouping closure passed to `entries.Group` by
`GetRecentDaysGrouped`: for a dated entry it overwrites the entry's stored
date with the backward-shifted workday date and derives the group key; an
entry with no date yields no key.  Returns the (possibly mutated) entry
together with the optional key. -/
def groupKeyFn (c : CalConfig) (groupBy : String) (e : TimeEntry) :
    TimeEntry × Option String :=
  match e.spentDate with
  | none => (e, none)
  | some d0 =>
    let d := shiftToWorkday c d0
    let e2 : TimeEntry := ⟨e.hours, some d⟩
    if groupBy = groupByWeek then (e2, some (isoWeekKey d))
    else (e2, some (formatDate (groupFormatOf groupBy) d))

/-- Append an entry to the bucket of its key. -/
def addToBucket (k : String) (e : TimeEntry) :
    List (String × List TimeEntry) → List (String × List TimeEntry)
  | [] => [(k, [e])]
  | (k2, b) :: rest =>
    if k2 = k then (k2, b ++ [e]) :: rest
    else (k2, b) :: addToBucket k e rest

/-- Modelled from the spec: `harvest.TimeEntries.Group` (in the repository's
`harvest` package, not part of the sources here; §4.3: for each entry derive
the key via the supplied closure, skip entries with no key, and append the
entry to the bucket for that key). -/
def groupEntries (es : List TimeEntry)
    (f : TimeEntry → TimeEntry × Option String) :
    List (String × List TimeEntry) :=
  es.foldl
    (fun bs e =>
      match f e with
      | (_, none) => bs
      | (e2, some k) => addToBucket k e2 bs)
    []

/-- Error component of `GetRecentDaysGrouped`'s return value. -/
inductive GroupErr
  | invalidGroup (s : String)
  | remote
deriving DecidableEq, Repr

/-- The `(int, harvest.Grouped, error)` return value of
`GetRecentDaysGrouped`: day count, the grouping (nil on error), and the
error (nil on success). -/
structure GroupedReturn where
  days : Nat
  groups : Option (List (String × List TimeEntry))
  error : Option GroupErr
deriving DecidableEq, Repr

/-- How a finished `GetRecentDaysGrouped` call ends: returning its
`(int, harvest.Grouped, error)` tuple, or propagating a runtime panic from
the delegated `GetRecentDays`. -/
inductive GroupedOutcome
  | ret (r : GroupedReturn)
  | panicked
deriving DecidableEq, Repr

/-- `Timetracking.GetRecentDaysGrouped`; `none` again models a call that
never returns (the skeleton loop of the delegated `GetRecentDays`). -/
def getRecentDaysGrouped (c : CalConfig) (amount fromD : Int)
    (actualDays : Bool) (groupBy : String) (resps : List Resp) :
    Option GroupedOutcome :=
  if groupBy = groupByDay ∨ groupBy = groupByWeek ∨ groupBy = groupByMonth ∨
      groupBy = groupByYear then
    match getRecentDays c amount fromD actualDays resps with
    | none => none
    | some GRDResult.panicked => some GroupedOutcome.panicked
    | some GRDResult.err =>
      some (GroupedOutcome.ret ⟨0, none, some GroupErr.remote⟩)
    | some (GRDResult.ok days es) =>
      some (GroupedOutcome.ret
        ⟨days, some (groupEntries es (groupKeyFn c groupBy)), none⟩)
  else some (GroupedOutcome.ret ⟨0, none, some (GroupErr.invalidGroup groupBy)⟩)

/-- Amended C4: `GetRecentDays` retains kept remote entries with their
original, possibly non-workday dates (see the counterexample); the in-place
date overwrite happens in `GetRecentDaysGrouped`'s grouping closure, which
replaces every dated entry's stored date with its backward-shifted workday
date, a date for which `IsNonWorkday` is false. -/
theorem groupClosure_overwrites_with_workday (c : CalConfig)
    (hc : HasWorkWeekday c) (groupBy : String) (e : TimeEntry) (d0 : Int)
    (hd : e.spentDate = some d0) :
    (groupKeyFn c groupBy e).1.spentDate = some (shiftToWorkday c d0) ∧
      ¬ c.isNonWorkday (shiftToWorkday c d0) := by
  refine ⟨?_, (shiftToWorkday_spec c hc d0).2⟩
  simp only [groupKeyFn, hd]
  split
  · rfl
  · rfl

/-- Witness for the amended C4: the Saturday entry of the C4 counterexample,
run through the grouping closure, carries the Friday date. -/
theorem groupClosure_overwrites_with_workday_witness :
    HasWorkWeekday ⟨[6], []⟩ ∧
      ((⟨5, some 2⟩ : TimeEntry).spentDate = some 2) ∧
      (groupKeyFn ⟨[6], []⟩ groupByDay ⟨5, some 2⟩).1.spentDate =
        some (shiftToWorkday ⟨[6], []⟩ 2) ∧
      ¬ CalConfig.isNonWorkday ⟨[6], []⟩ (shiftToWorkday ⟨[6], []⟩ 2) :=
  ⟨⟨0, by decide⟩, rfl,
    groupClosure_overwrites_with_workday ⟨[6], []⟩ ⟨0, by decide⟩
      groupByDay ⟨5, some 2⟩ 2 rfl⟩

/-- C8: for every `groupBy` other than "day", "week", "month" or "year",
`GetRecentDaysGrouped` returns `(0, nil, InvalidGranularity)` — the same
value for every amount, date, flag and remote behaviour, so no remote call
is made and the collector is never invoked. -/
theorem grouped_invalid_granularity (c : CalConfig) (amount fromD : Int)
    (actualDays : Bool) (groupBy : String) (resps : List Resp)
    (h1 : groupBy ≠ groupByDay) (h2 : groupBy ≠ groupByWeek)
    (h3 : groupBy ≠ groupByMonth) (h4 : groupBy ≠ groupByYear) :
    getRecentDaysGrouped c amount fromD actualDays groupBy resps =
      some (GroupedOutcome.ret
        ⟨0, none, some (GroupErr.invalidGroup groupBy)⟩) := by
  unfold getRecentDaysGrouped
  rw [if_neg]
  intro hcon
  rcases hcon with h | h | h | h
  · exact h1 h
  · exact h2 h
  · exact h3 h
  · exact h4 h

/-- Witness for C8 at the granularity "fortnight". -/
theorem grouped_invalid_granularity_witness :
    ("fortnight" ≠ groupByDay) ∧ ("fortnight" ≠ groupByWeek) ∧
      ("fortnight" ≠ groupByMonth) ∧ ("fortnight" ≠ groupByYear) ∧
      getRecentDaysGrouped ⟨[], []⟩ 5 0 true "fortnight" [] =
        some (GroupedOutcome.ret
          ⟨0, none, some (GroupErr.invalidGroup "fortnight")⟩) :=
  ⟨by decide, by decide, by decide, by decide,
    grouped_invalid_granularity ⟨[], []⟩ 5 0 true "fortnight" []
      (by decide) (by decide) (by decide) (by decide)⟩

/-! ### `Config.Validate` -/

/-- The raw configuration fields `weekdays_off` and `exclude_dates`. -/
structure Config where
  weekdaysOff : List String
  excludedDates : List String
deriving DecidableEq, Repr

/-- The errors `Config.Validate` can return. -/
inductive ConfigErr
  | badDate (s : String)
  | badWeekday (s : String)
  | allDaysOff
deriving DecidableEq, Repr

def digitVal (ch : Char) : Option Int :=
  if '0' ≤ ch ∧ ch ≤ '9' then some ((ch.toNat : Int) - 48) else none

/-- Go's leap-year rule (`time.isLeap`). -/
def isLeapYear (y : Int) : Bool :=
  (y % 4 == 0) && (!(y % 100 == 0) || (y % 400 == 0))

def daysInMonth (y m : Int) : Int :=
  if m = 2 then (if isLeapYear y then 29 else 28)
  else if m = 4 ∨ m = 6 ∨ m = 9 ∨ m = 11 then 30
  else 31

/-- Go `time.Parse("2006-01-02", s)`: exactly four year digits, a dash, two
month digits in 1..12, a dash, two day digits in range for the month, and
nothing else. -/
def parseDate (s : String) : Option (Int × Int × Int) :=
  match s.toList with
  | [y1, y2, y3, y4, '-', m1, m2, '-', d1, d2] => do
    let a ← digitVal y1
    let b ← digitVal y2
    let c2 ← digitVal y3
    let d ← digitVal y4
    let e ← digitVal m1
    let f ← digitVal m2
    let g ← digitVal d1
    let h ← digitVal d2
    let y := a * 1000 + b * 100 + c2 * 10 + d
    let mo := e * 10 + f
    let da := g * 10 + h
    if 1 ≤ mo ∧ mo ≤ 12 ∧ 1 ≤ da ∧ da ≤ daysInMonth y mo then
      some (y, mo, da)
    else none
  | _ => none

/-- The `wds` lookup table of `Config.Validate`: the lowered input against
the lowercased canonical weekday names, yielding Go `time.Weekday` values. -/
def weekdayOfName (s : String) : Option Int :=
  if s.toLower = "monday" then some 1
  else if s.toLower = "tuesday" then some 2
  else if s.toLower = "wednesday" then some 3
  else if s.toLower = "thursday" then some 4
  else if s.toLower = "friday" then some 5
  else if s.toLower = "saturday" then some 6
  else if s.toLower = "sunday" then some 0
  else none

/-- `len(c.weekdaysOffMap)`: the number of distinct weekdays named (with
duplicates and case differences collapsed). -/
def distinctWeekdaysOff (c : Config) : Nat :=
  (c.weekdaysOff.filterMap weekdayOfName).dedup.length

/-- `Config.Validate`: first unparsable excluded date, else first invalid
weekday name, else the over-broad off-set check `len(weekdaysOffMap) > 6`;
`none` is a nil error. -/
def validate (c : Config) : Option ConfigErr :=
  match c.excludedDates.find? (fun v => (parseDate v).isNone) with
  | some v => some (ConfigErr.badDate v)
  | none =>
    match c.weekdaysOff.find? (fun v => (weekdayOfName v).isNone) with
    | some v => some (ConfigErr.badWeekday v)
    | none =>
      if 6 < distinctWeekdaysOff c then some ConfigErr.allDaysOff
      else none

theorem weekdayOfName_range (s : String) (w : Int)
    (h : weekdayOfName s = some w) : 0 ≤ w ∧ w < 7 := by
  unfold weekdayOfName at h
  by_cases h1 : s.toLower = "monday"
  · rw [if_pos h1] at h; cases h; omega
  rw [if_neg h1] at h
  by_cases h2 : s.toLower = "tuesday"
  · rw [if_pos h2] at h; cases h; omega
  rw [if_neg h2] at h
  by_cases h3 : s.toLower = "wednesday"
  · rw [if_pos h3] at h; cases h; omega
  rw [if_neg h3] at h
  by_cases h4 : s.toLower = "thursday"
  · rw [if_pos h4] at h; cases h; omega
  rw [if_neg h4] at h
  by_cases h5 : s.toLower = "friday"
  · rw [if_pos h5] at h; cases h; omega
  rw [if_neg h5] at h
  by_cases h6 : s.toLower = "saturday"
  · rw [if_pos h6] at h; cases h; omega
  rw [if_neg h6] at h
  by_cases h7 : s.toLower = "sunday"
  · rw [if_pos h7] at h; cases h; omega
  rw [if_neg h7] at h
  cases h

theorem distinctWeekdaysOff_le7 (c : Config) : distinctWeekdaysOff c ≤ 7 := by
  unfold distinctWeekdaysOff
  set l := c.weekdaysOff.filterMap weekdayOfName with hl
  have hnd : l.dedup.Nodup := List.nodup_dedup l
  have hcard : l.dedup.toFinset.card = l.dedup.length :=
    List.toFinset_card_of_nodup hnd
  have hsub : l.dedup.toFinset ⊆ Finset.Icc (0 : Int) 6 := by
    intro x hx
    rw [List.mem_toFinset, List.mem_dedup] at hx
    rcases List.mem_filterMap.mp hx with ⟨s, hs, hw⟩
    have := weekdayOfName_range s x hw
    simp only [Finset.mem_Icc]
    omega
  have h7 : (Finset.Icc (0 : Int) 6).card = 7 := by decide
  have := Finset.card_le_card hsub
  omega

/-- C7: `Config.Validate` returns an error exactly when some excluded-date
string does not parse as a `YYYY-MM-DD` calendar date, or some listed
off-weekday name does not match one of the seven canonical names
case-insensitively, or the distinct off-weekdays cover all 7 weekdays
(`len(weekdaysOffMap) > 6` holds exactly when all 7 values occur). -/
theorem validate_error_iff (c : Config) :
    validate c ≠ none ↔
      (∃ v ∈ c.excludedDates, parseDate v = none) ∨
      (∃ v ∈ c.weekdaysOff, weekdayOfName v = none) ∨
      distinctWeekdaysOff c = 7 := by
  cases hd : c.excludedDates.find? (fun v => (parseDate v).isNone) with
  | some v =>
    have hv : validate c = some (ConfigErr.badDate v) := by
      unfold validate
      rw [hd]
    rw [hv]
    constructor
    · intro _
      refine Or.inl ⟨v, List.mem_of_find?_eq_some hd, ?_⟩
      have := List.find?_some hd
      simpa using this
    · intro _
      simp
  | none =>
    have hdn : ∀ v ∈ c.excludedDates, parseDate v ≠ none := by
      intro v hv
      have := List.find?_eq_none.mp hd v hv
      simpa using this
    cases hw : c.weekdaysOff.find? (fun v => (weekdayOfName v).isNone) with
    | some v =>
      have hv : validate c = some (ConfigErr.badWeekday v) := by
        unfold validate
        rw [hd, hw]
      rw [hv]
      constructor
      · intro _
        refine Or.inr (Or.inl ⟨v, List.mem_of_find?_eq_some hw, ?_⟩)
        have := List.find?_some hw
        simpa using this
      · intro _
        simp
    | none =>
      have hwn : ∀ v ∈ c.weekdaysOff, weekdayOfName v ≠ none := by
        intro v hv
        have := List.find?_eq_none.mp hw v hv
        simpa using this
      have hv : validate c =
          (if 6 < distinctWeekdaysOff c then some ConfigErr.allDaysOff
            else none) := by
        unfold validate
        rw [hd, hw]
      rw [hv]
      by_cases h6 : 6 < distinctWeekdaysOff c
      · rw [if_pos h6]
        constructor
        · intro _
          have := distinctWeekdaysOff_le7 c
          exact Or.inr (Or.inr (by omega))
        · intro _
          simp
      · rw [if_neg h6]
        constructor
        · intro hcon
          exact absurd rfl hcon
        · intro hcon
          rcases hcon with ⟨v, hvm, hp⟩ | ⟨v, hvm, hp⟩ | h7
          · exact absurd hp (hdn v hvm)
          · exact absurd hp (hwn v hvm)
          · omega

/-! ### Session facade: `SetUID`, `User` and the nil-user dereference -/

/-- `harvest.User` as this code uses it: the `ID` field. -/
structure HUser where
  id : Int
deriving DecidableEq, Repr

/-- The user-related state of a `Timetracking` value: `t.user`, `nil` as
`none`. -/
structure TTState where
  user : Option HUser
deriving DecidableEq, Repr

/-- A freshly constructed `Timetracking` (`New`): no user set. -/
def newTimetracking : TTState := ⟨none⟩

/-- `Timetracking.SetUID`: first `t.user = nil`, then both the user and the
error are assigned from the remote call's result (`GetMe`/`GetUser`, which
yield no user when they fail), so after an erroring call the user is still
nil. -/
def setUID (_st : TTState) (_uid : Int) (resp : Except Unit HUser) :
    TTState × Option Unit :=
  match resp with
  | Except.ok u => (⟨some u⟩, none)
  | Except.error e => (⟨none⟩, some e)

/-- `GetRecentDays` as invoked on a `Timetracking` value: the first line
builds `params` from `t.User().ID`; with no user set this dereferences a nil
pointer (outer `none`), otherwise the collector runs. -/
def getRecentDaysEntry (st : TTState) (c : CalConfig) (amount fromD : Int)
    (actualDays : Bool) (resps : List Resp) : Option (Option GRDResult) :=
  match st.user with
  | none => none
  | some _ => some (getRecentDays c amount fromD actualDays resps)

/-- `GetRecentDaysGrouped` as invoked on a `Timetracking` value: an invalid
granularity returns before `GetRecentDays` is called; otherwise the nil-user
dereference of `getRecentDaysEntry` is reached. -/
def getRecentDaysGroupedEntry (st : TTState) (c : CalConfig)
    (amount fromD : Int) (actualDays : Bool) (groupBy : String)
    (resps : List Resp) : Option (Option GroupedOutcome) :=
  if groupBy = groupByDay ∨ groupBy = groupByWeek ∨ groupBy = groupByMonth ∨
      groupBy = groupByYear then
    match st.user with
    | none => none
    | some _ =>
      some (getRecentDaysGrouped c amount fromD actualDays groupBy resps)
  else
    some (some (GroupedOutcome.ret
      ⟨0, none, some (GroupErr.invalidGroup groupBy)⟩))

/-- C9: a fresh `Timetracking` has no user; `SetUID` whose remote call
errors leaves the user cleared; and calling `GetRecentDays` (or
`GetRecentDaysGrouped` with a valid granularity) with no user set
dereferences a nil pointer at `t.User().ID` — a successfully set user is an
unstated precondition of both entry points. -/
theorem getRecentDays_requires_user :
    ∀ (st : TTState) (uid : Int) (e : Unit) (c : CalConfig)
      (amount fromD : Int) (actualDays : Bool) (resps : List Resp),
      newTimetracking.user = none ∧
      (setUID st uid (Except.error e)).1.user = none ∧
      getRecentDaysEntry ⟨none⟩ c amount fromD actualDays resps = none ∧
      getRecentDaysGroupedEntry ⟨none⟩ c amount fromD actualDays groupByDay
        resps = none := by
  intro st uid e c amount fromD actualDays resps
  exact ⟨rfl, rfl, rfl, rfl⟩

/-! ### `Timetracking.GetAssignmentsByName` -/

/-- `forecast.Project` as this code uses it: `Name` and `ID`. -/
structure Project where
  name : String
  id : Int
deriving DecidableEq, Repr

/-- `forecast.User` as this code uses it: the `ID` field. -/
structure FUser where
  id : Int
deriving DecidableEq, Repr

/-- An opaque `forecast.Assignment` record. -/
structure Assignment where
  id : Int
deriving DecidableEq, Repr

/-- The errors `GetAssignmentsByName` can return. -/
inductive ABNErr
  | noUser
  | remote
  | notFound (name : String)
deriving DecidableEq, Repr

/-- The `id` accumulation loop over `ps.Projects`: every match overwrites
`id`, starting from 0. -/
def findProjectID (ps : List Project) (projectName : String) : Int :=
  ps.foldl (fun acc p => if p.name = projectName then p.id else acc) 0

/-- `Timetracking.GetAssignmentsByName`.  The two remote directories are
the listing response `projResp` and the assignment fetch `getAssignments`,
applied to the project id and person id the code passes. -/
def getAssignmentsByName (forecastUser : Option FUser)
    (projResp : Except Unit (List Project)) (projectName : String)
    (getAssignments : Int → Int → Except Unit (List Assignment)) :
    Except ABNErr (List Assignment) :=
  match forecastUser with
  | none => Except.error ABNErr.noUser
  | some u =>
    if u.id = 0 then Except.error ABNErr.noUser
    else
      match projResp with
      | Except.error _ => Except.error ABNErr.remote
      | Except.ok ps =>
        let pid := findProjectID ps projectName
        if pid = 0 then Except.error (ABNErr.notFound projectName)
        else
          match getAssignments pid u.id with
          | Except.error _ => Except.error ABNErr.remote
          | Except.ok asg => Except.ok asg

theorem findProjectID_foldl (projectName : String) :
    ∀ (ps : List Project) (a : Int),
      ps.foldl (fun acc p => if p.name = projectName then p.id else acc) a =
        match ps.reverse.find? (fun q => q.name == projectName) with
        | some p => p.id
        | none => a := by
  intro ps
  induction ps with
  | nil => intro a; rfl
  | cons p rest ih =>
    intro a
    simp only [List.foldl_cons, List.reverse_cons, List.find?_append]
    rw [ih]
    cases hf : rest.reverse.find? (fun q => q.name == projectName) with
    | some q => simp
    | none =>
      by_cases hp : p.name = projectName
      · have hb : (p.name == projectName) = true := by simp [hp]
        simp [List.find?, hb, hp]
      · have hb : (p.name == projectName) = false := by simp [hp]
        simp [List.find?, hb, hp]

theorem findProjectID_eq_last_match (ps : List Project)
    (projectName : String) :
    findProjectID ps projectName =
      ((ps.reverse.find? (fun q => q.name == projectName)).map
        Project.id).getD 0 := by
  unfold findProjectID
  rw [findProjectID_foldl]
  cases ps.reverse.find? (fun q => q.name == projectName) with
  | some q => rfl
  | none => rfl

/-- C10: with a forecast user set (nonzero id), the project id used for the
assignment lookup is the id of the *last* project in listing order whose
name matches; and when there is no match, or the last matching project has
id 0 (indistinguishable from no match), the descriptive not-found error is
returned and no assignment fetch happens. -/
theorem getAssignmentsByName_last_match (u : FUser) (hu : u.id ≠ 0)
    (ps : List Project) (projectName : String)
    (ga : Int → Int → Except Unit (List Assignment)) :
    (∀ p, ps.reverse.find? (fun q => q.name == projectName) = some p →
      p.id ≠ 0 →
      getAssignmentsByName (some u) (Except.ok ps) projectName ga =
        match ga p.id u.id with
        | Except.error _ => Except.error ABNErr.remote
        | Except.ok asg => Except.ok asg) ∧
    (((ps.reverse.find? (fun q => q.name == projectName)).map
        Project.id).getD 0 = 0 →
      getAssignmentsByName (some u) (Except.ok ps) projectName ga =
        Except.error (ABNErr.notFound projectName)) := by
  constructor
  · intro p hfind hpid
    have hid : findProjectID ps projectName = p.id := by
      rw [findProjectID_eq_last_match, hfind]
      rfl
    simp only [getAssignmentsByName, if_neg hu, hid, if_neg hpid]
  · intro hzero
    have hid : findProjectID ps projectName = 0 := by
      rw [findProjectID_eq_last_match, hzero]
    simp only [getAssignmentsByName, if_neg hu, hid]
    simp

/-- Witness for C10: two projects named "x"; the later one's id 7 is used
for the fetch. -/
theorem getAssignmentsByName_last_match_witness :
    ((⟨9⟩ : FUser).id ≠ 0) ∧
      ([⟨"x", 3⟩, ⟨"x", 7⟩] : List Project).reverse.find?
        (fun q => q.name == "x") = some ⟨"x", 7⟩ ∧
      ((⟨"x", 7⟩ : Project).id ≠ 0) ∧
      getAssignmentsByName (some ⟨9⟩) (Except.ok [⟨"x", 3⟩, ⟨"x", 7⟩]) "x"
          (fun pid _ => Except.ok [⟨pid⟩]) =
        Except.ok [⟨7⟩] :=
  ⟨by decide, by decide, by decide,
    (getAssignmentsByName_last_match ⟨9⟩ (by decide) [⟨"x", 3⟩, ⟨"x", 7⟩] "x"
      (fun pid _ => Except.ok [⟨pid⟩])).1 ⟨"x", 7⟩ (by decide) (by decide)⟩
